import Mathlib

/-!
Verification of the parallel nearest-neighbor transfer-coefficient engine
(`CNearestNeighbor::Set_TransferCoeff`, src/Common/src/interface_interpolation/
CNearestNeighbor.cpp).

Shallow embedding conventions:
* `su2double` values are modelled as exact rationals `ℚ`; the machine epsilon of
  `passivedouble` (IEEE double) is the concrete rational `2⁻⁵²`.
* The flat MPI receive buffers (`Buffer_Receive_nVertex_Donor`,
  `Buffer_Receive_GlobalPoint`, `Buffer_Receive_Coord`) are modelled as total
  functions from flat indices, exactly as the code indexes them.
* `std::partial_sort(first, first+k, last, cmp)` with `cmp = (a.dist < b.dist)`
  is modelled by its contract from the C++ standard (the library source is not
  part of this repository): the result is a permutation of the input whose first
  `k` elements are sorted non-decreasingly by `dist` and are each no farther
  than every remaining element.  The order of ties is not fixed by the contract,
  so theorems quantify over every admissible outcome.
-/

namespace SU2NN

/-- `numeric_limits<passivedouble>::epsilon()` for IEEE double: `2⁻⁵²`
    (CNearestNeighbor.cpp line 53). -/
def epsM : ℚ := 1 / 2 ^ 52

/-- The helper struct of CNearestNeighbor.cpp lines 35-41: squared distance,
    global point index and owning processor of one donor candidate. -/
structure DonorInfo where
  dist : ℚ
  pidx : ℕ
  proc : ℤ
deriving DecidableEq, Repr, Inhabited

/-- `PointsSquareDistance(nDim, Coord_i, Coord_j)`: squared Euclidean distance
    over the first `nDim` coordinates. -/
def PointsSquareDistance (nDim : ℕ) (ci cj : ℕ → ℚ) : ℚ :=
  ∑ d ∈ Finset.range nDim, (ci d - cj d) ^ 2

/-- The donor-side data gathered on every rank before the search loop:
    `Buffer_Receive_nVertex_Donor`, `MaxLocalVertex_Donor`,
    `Buffer_Receive_GlobalPoint` and `Buffer_Receive_Coord` (flat, stride
    `MaxLocalVertex_Donor` per processor and `nDim` per point). -/
structure GatheredDonors where
  nProcessor : ℕ
  nVertexPerProc : ℕ → ℕ
  maxLocalVertex : ℕ
  globalPoint : ℕ → ℕ
  coord : ℕ → ℚ

/-- The candidate built for processor `iProc`, local slot `jVertex`
    (CNearestNeighbor.cpp lines 116-121): flat index
    `idx = iProc*MaxLocalVertex_Donor + jVertex`, coordinates at
    `idx*nDim`, global point at `idx`. -/
def donorCandidate (g : GatheredDonors) (nDim : ℕ) (ci : ℕ → ℚ)
    (iProc jVertex : ℕ) : DonorInfo :=
  { dist := PointsSquareDistance nDim ci
      (fun d => g.coord ((iProc * g.maxLocalVertex + jVertex) * nDim + d))
    pidx := g.globalPoint (iProc * g.maxLocalVertex + jVertex)
    proc := (iProc : ℤ) }

/-- The candidate list written into `donorInfo` by the fill loop of
    CNearestNeighbor.cpp lines 113-123: processors in increasing rank, and for
    each processor its local slots `0 ≤ jVertex < Buffer_Receive_nVertex_Donor`,
    appended in order through the running index `iDonor`. -/
def fillDonorInfo (g : GatheredDonors) (nDim : ℕ) (ci : ℕ → ℚ) : List DonorInfo :=
  ((List.range g.nProcessor).map
    (fun p => (List.range (g.nVertexPerProc p)).map (donorCandidate g nDim ci p))).flatten

/-- The contract of the `partial_sort` call at CNearestNeighbor.cpp lines
    126-127: `r` is a permutation of the candidate list `l`, its first `k`
    entries are in non-decreasing `dist` order, and none of the remaining
    entries is closer than any of the first `k`.  Ties are not ordered by the
    contract, so any `r` satisfying this predicate is an admissible outcome. -/
def IsSelectTopK (k : ℕ) (l r : List DonorInfo) : Prop :=
  l.Perm r ∧ (r.take k).Pairwise (fun a b => a.dist ≤ b.dist) ∧
    ∀ a ∈ r.take k, ∀ b ∈ r.drop k, a.dist ≤ b.dist

instance (k : ℕ) (l r : List DonorInfo) : Decidable (IsSelectTopK k l r) := by
  unfold IsSelectTopK; infer_instance

/-- Squared distance of the entry at slot `i` of the (partially sorted) working
    array; out-of-range reads return the junk `default` value, mirroring that
    the C++ read is out of bounds there. -/
def selDist (r : List DonorInfo) (i : ℕ) : ℚ := (r.getD i default).dist

/-- Line 132: each selected distance is replaced by the raw inverse-distance
    weight `1/(dist + eps)`. -/
def invWeight (d : ℚ) : ℚ := 1 / (d + epsM)

/-- Lines 130-134: the accumulated denominator, the sum of the `nDonor` raw
    weights. -/
def computeDenom (nDonor : ℕ) (r : List DonorInfo) : ℚ :=
  ((List.range nDonor).map (fun i => invWeight (selDist r i))).sum

/-- The per-vertex transfer record: `Allocate_DonorInfo(nDonor)` followed by the
    `SetInterpDonorPoint` / `SetInterpDonorProcessor` / `SetDonorCoeff` writes,
    one triple per slot. -/
structure TransferRecord where
  donorPoint : List ℕ
  donorProc : List ℤ
  coeff : List ℚ
deriving DecidableEq, Repr

/-- Lines 129-143 applied to an admissible partially sorted array `r`: allocate
    exactly `nDonor` slots and write, for slot `i`, the global point, the
    processor, and the normalized weight `invWeight(dist)/denom`. -/
def processTarget (nDonor : ℕ) (r : List DonorInfo) : TransferRecord :=
  { donorPoint := (List.range nDonor).map (fun i => (r.getD i default).pidx)
    donorProc := (List.range nDonor).map (fun i => (r.getD i default).proc)
    coeff := (List.range nDonor).map
      (fun i => invWeight (selDist r i) / computeDenom nDonor r) }

/-- Hand-checkable instance for C1: a single donor at coordinate 3 and a target
    at coordinate 1 in one dimension. -/
def gW1 : GatheredDonors :=
  { nProcessor := 1, nVertexPerProc := fun _ => 1, maxLocalVertex := 1,
    globalPoint := fun _ => 7, coord := fun _ => 3 }

/-- Line 51: `nDonor = max<unsigned long>(config[donorZone]->GetNumNearestNeighbors(), 1)`,
    computed once (a `const` local) before the marker loop. -/
def effectiveNDonor (numNearestNeighbors : ℕ) : ℕ := max numNearestNeighbors 1

/-- `nPossibleDonor` (lines 83-84): `accumulate` of `Buffer_Receive_nVertex_Donor`
    over all processors. -/
def nPossibleDonorOf (g : GatheredDonors) : ℕ :=
  ∑ p ∈ Finset.range g.nProcessor, g.nVertexPerProc p

/-- The slots of the per-thread `donorInfo` working array (resized to
    `nPossibleDonor`, lines 98-99) touched while processing one owned target
    vertex: the fill loop writes slots `0..nPossibleDonor-1` (lines 113-123, one
    per real gathered candidate) and the selection, weighting and record-write
    loops touch slots `0..nDonor-1` (lines 126-143); no clamp or emptiness check
    guards either range. -/
def donorInfoAccesses (nDonor nPossibleDonor : ℕ) : List ℕ :=
  List.range nPossibleDonor ++ List.range nDonor

/-- The target-side geometry consumed by the vertex loop: the vertex count of
    the target marker, each vertex's node (`GetNode`), and each node's
    domain-ownership flag (`GetDomain`). -/
structure TargetGeom where
  nVertexTarget : ℕ
  nodeOf : ℕ → ℕ
  domain : ℕ → Bool

/-- The loop over target vertices (CNearestNeighbor.cpp lines 102-144), with
    the records of all vertices as explicit state (`none` = no record).  A
    vertex whose node's `GetDomain()` is false is passed over by the `continue`
    at line 107; an owned vertex gets the record computed from the admissible
    selection outcome `choice i` for its candidate list.  The second component
    lists, in order, the vertices for which the scan-select-write body ran. -/
def vertexPass (nDonor : ℕ) (tg : TargetGeom) (choice : ℕ → List DonorInfo)
    (init : ℕ → Option TransferRecord) : (ℕ → Option TransferRecord) × List ℕ :=
  (List.range tg.nVertexTarget).foldl
    (fun st i =>
      if tg.domain (tg.nodeOf i) then
        (fun j => if j = i then some (processTarget nDonor (choice i)) else st.1 j,
          st.2 ++ [i])
      else st)
    (init, [])

/-- A two-vertex target marker whose vertex 0 is a halo point and whose
    vertex 1 is owned. -/
def tgW : TargetGeom :=
  { nVertexTarget := 2, nodeOf := fun i => i, domain := fun i => decide (i = 1) }

/-- The observable per-marker actions of the marker loop, in program order:
    the size-negotiation collective `Determine_ArraySize` (line 81), the four
    buffer allocations (lines 86-89), and the vertex-collection collective
    `Collect_VertexInfo` (line 92). -/
inductive MarkerEvent where
  | determineArraySize (m : ℕ)
  | allocSendCoord (m : ℕ)
  | allocSendGlobalPoint (m : ℕ)
  | allocRecvCoord (m : ℕ)
  | allocRecvGlobalPoint (m : ℕ)
  | collectVertexInfo (m : ℕ)
deriving DecidableEq, Repr

/-- The interface-marker index an event belongs to. -/
def MarkerEvent.marker : MarkerEvent → ℕ
  | .determineArraySize m => m
  | .allocSendCoord m => m
  | .allocSendGlobalPoint m => m
  | .allocRecvCoord m => m
  | .allocRecvGlobalPoint m => m
  | .collectVertexInfo m => m

/-- Modelled from the spec: `CInterpolator::CheckInterfaceBoundary` is declared
    in a file not present in this repository snapshot; per the spec the gate
    fails (and the marker is skipped) exactly when neither zone's marker
    resolves to a real value, the sentinel "not present" being `-1`. -/
def CheckInterfaceBoundary (markDonor markTarget : ℤ) : Bool :=
  markDonor ≠ -1 ∨ markTarget ≠ -1

/-- The marker loop of CNearestNeighbor.cpp lines 65-92 as the list of events it
    issues: markers `1..nMarkerInt` in order; `findDonor`/`findTarget` give the
    result of `Find_InterfaceMarker` on each side (also external to this
    snapshot; `-1` = not present); a marker failing the gate at line 74
    contributes nothing (`continue`). -/
def markerLoop (nMarkerInt : ℕ) (findDonor findTarget : ℕ → ℤ) : List MarkerEvent :=
  ((List.range' 1 nMarkerInt).map (fun iMarkerInt =>
    if CheckInterfaceBoundary (findDonor iMarkerInt) (findTarget iMarkerInt) then
      [MarkerEvent.determineArraySize iMarkerInt,
       MarkerEvent.allocSendCoord iMarkerInt,
       MarkerEvent.allocSendGlobalPoint iMarkerInt,
       MarkerEvent.allocRecvCoord iMarkerInt,
       MarkerEvent.allocRecvGlobalPoint iMarkerInt,
       MarkerEvent.collectVertexInfo iMarkerInt]
    else [])).flatten

/-- The worked example's gathered donors: one process, three donors at 1-D
    coordinates 1, 2, 3, global points 0, 1, 2. -/
def gC4 : GatheredDonors :=
  { nProcessor := 1, nVertexPerProc := fun _ => 3, maxLocalVertex := 3,
    globalPoint := fun idx => idx, coord := fun idx => (idx : ℚ) + 1 }

/-- Two donors, one coincident with the target (1-D coordinates 0 and 1,
    target at 0): squared distances 0 and 1. -/
def gC6 : GatheredDonors :=
  { nProcessor := 1, nVertexPerProc := fun _ => 2, maxLocalVertex := 2,
    globalPoint := fun idx => idx, coord := fun idx => (idx : ℚ) }

/-- Two processes, one donor each, both at 1-D coordinate 1 (target at 0), so
    both candidates are at squared distance 1: an exact tie.  Global points 10
    (process 0, first in scan order) and 11 (process 1). -/
def gC8 : GatheredDonors :=
  { nProcessor := 2, nVertexPerProc := fun _ => 1, maxLocalVertex := 1,
    globalPoint := fun idx => idx + 10, coord := fun _ => 1 }

/-! ### Basic facts about the embedded definitions -/

theorem epsM_pos : 0 < epsM := by norm_num [epsM]

theorem PointsSquareDistance_nonneg (nDim : ℕ) (ci cj : ℕ → ℚ) :
    0 ≤ PointsSquareDistance nDim ci cj :=
  Finset.sum_nonneg fun _ _ => sq_nonneg _

theorem mem_fillDonorInfo {g : GatheredDonors} {nDim : ℕ} {ci : ℕ → ℚ}
    {c : DonorInfo} :
    c ∈ fillDonorInfo g nDim ci ↔
      ∃ p < g.nProcessor, ∃ j < g.nVertexPerProc p, c = donorCandidate g nDim ci p j := by
  simp only [fillDonorInfo, List.mem_flatten, List.mem_map, List.mem_range]
  constructor
  · rintro ⟨_, ⟨p, hp, rfl⟩, hc⟩
    rcases List.mem_map.mp hc with ⟨j, hj, rfl⟩
    exact ⟨p, hp, j, List.mem_range.mp hj, rfl⟩
  · rintro ⟨p, hp, j, hj, rfl⟩
    exact ⟨_, ⟨p, hp, rfl⟩, List.mem_map.mpr ⟨j, List.mem_range.mpr hj, rfl⟩⟩

theorem dist_nonneg_of_mem_fill {g : GatheredDonors} {nDim : ℕ} {ci : ℕ → ℚ}
    {c : DonorInfo} (hc : c ∈ fillDonorInfo g nDim ci) : 0 ≤ c.dist := by
  rcases mem_fillDonorInfo.mp hc with ⟨p, _, j, _, rfl⟩
  exact PointsSquareDistance_nonneg _ _ _

theorem length_fillDonorInfo (g : GatheredDonors) (nDim : ℕ) (ci : ℕ → ℚ) :
    (fillDonorInfo g nDim ci).length = ∑ p ∈ Finset.range g.nProcessor, g.nVertexPerProc p := by
  simp [fillDonorInfo, List.length_flatten, Function.comp_def]
  induction g.nProcessor with
  | zero => simp
  | succ n ih => rw [List.range_succ, Finset.sum_range_succ]; simp [ih]

theorem invWeight_pos {d : ℚ} (hd : 0 ≤ d) : 0 < invWeight d := by
  have : 0 < d + epsM := by have := epsM_pos; linarith
  exact div_pos one_pos this

theorem sum_map_range (n : ℕ) (f : ℕ → ℚ) :
    ((List.range n).map f).sum = ∑ i ∈ Finset.range n, f i := by
  induction n with
  | zero => simp
  | succ m ih => rw [List.range_succ, Finset.sum_range_succ]; simp [ih]

/-! ### Facts about admissible selection outcomes -/

theorem IsSelectTopK.length_eq {k : ℕ} {l r : List DonorInfo}
    (h : IsSelectTopK k l r) : r.length = l.length :=
  h.1.symm.length_eq

theorem getD_mem_of_lt {r : List DonorInfo} {i : ℕ} (hi : i < r.length) :
    r.getD i default ∈ r := by
  rw [List.getD_eq_getElem r default hi]
  exact List.getElem_mem hi

theorem IsSelectTopK.sel_mem {k : ℕ} {l r : List DonorInfo}
    (h : IsSelectTopK k l r) {i : ℕ} (hi : i < k) (hk : k ≤ l.length) :
    r.getD i default ∈ l :=
  h.1.mem_iff.mpr (getD_mem_of_lt (by rw [h.length_eq]; omega))

theorem IsSelectTopK.selDist_nonneg {g : GatheredDonors} {nDim : ℕ} {ci : ℕ → ℚ}
    {k : ℕ} {r : List DonorInfo}
    (h : IsSelectTopK k (fillDonorInfo g nDim ci) r) {i : ℕ} (hi : i < k)
    (hk : k ≤ (fillDonorInfo g nDim ci).length) : 0 ≤ selDist r i :=
  dist_nonneg_of_mem_fill (h.sel_mem hi hk)

theorem IsSelectTopK.computeDenom_pos {g : GatheredDonors} {nDim : ℕ} {ci : ℕ → ℚ}
    {k : ℕ} {r : List DonorInfo}
    (h : IsSelectTopK k (fillDonorInfo g nDim ci) r) (hk1 : 1 ≤ k)
    (hk : k ≤ (fillDonorInfo g nDim ci).length) : 0 < computeDenom k r := by
  rw [computeDenom, sum_map_range]
  exact Finset.sum_pos
    (fun i hi => invWeight_pos (h.selDist_nonneg (Finset.mem_range.mp hi) hk))
    (by simp; omega)

theorem getD_take_eq {r : List DonorInfo} {k i : ℕ} (hik : i < k) :
    (r.take k).getD i default = r.getD i default := by
  rcases Nat.lt_or_ge i r.length with hir | hir
  · have h1 : i < (r.take k).length := by rw [List.length_take]; omega
    rw [List.getD_eq_getElem _ _ h1, List.getD_eq_getElem _ _ hir]
    exact List.getElem_take ..
  · have h1 : (r.take k).length ≤ i := by rw [List.length_take]; omega
    rw [List.getD_eq_default _ _ h1, List.getD_eq_default _ _ hir]

theorem pairwise_getD {l : List DonorInfo}
    (h : l.Pairwise (fun a b => a.dist ≤ b.dist)) {i j : ℕ} (hij : i < j)
    (hj : j < l.length) :
    (l.getD i default).dist ≤ (l.getD j default).dist := by
  induction l generalizing i j with
  | nil => simp at hj
  | cons x t ih =>
    rcases List.pairwise_cons.mp h with ⟨hx, ht⟩
    match i, j with
    | 0, j + 1 =>
      rw [List.getD_cons_zero, List.getD_cons_succ]
      exact hx _ (getD_mem_of_lt (by simpa using hj))
    | i + 1, j + 1 =>
      rw [List.getD_cons_succ, List.getD_cons_succ]
      exact ih ht (by omega) (by simpa using hj)

theorem IsSelectTopK.selDist_mono {k : ℕ} {l r : List DonorInfo}
    (h : IsSelectTopK k l r) {i j : ℕ} (hij : i ≤ j) (hj : j < k)
    (hk : k ≤ l.length) : selDist r i ≤ selDist r j := by
  rcases Nat.lt_or_ge i j with hlt | hge
  · have hjt : j < (r.take k).length := by
      rw [List.length_take, h.length_eq]; omega
    have := pairwise_getD h.2.1 hlt hjt
    rw [getD_take_eq (by omega), getD_take_eq hj] at this
    exact this
  · have : i = j := by omega
    rw [this]

theorem IsSelectTopK.sel_mem_take {k : ℕ} {l r : List DonorInfo}
    (h : IsSelectTopK k l r) {i : ℕ} (hi : i < k) (hk : k ≤ l.length) :
    r.getD i default ∈ r.take k := by
  have hir : i < (r.take k).length := by
    rw [List.length_take, h.length_eq]; omega
  rw [← getD_take_eq hi]
  exact getD_mem_of_lt hir

theorem IsSelectTopK.sel_le_drop {k : ℕ} {l r : List DonorInfo}
    (h : IsSelectTopK k l r) {i : ℕ} (hi : i < k) (hk : k ≤ l.length)
    {b : DonorInfo} (hb : b ∈ r.drop k) : selDist r i ≤ b.dist :=
  h.2.2 _ (h.sel_mem_take hi hk) b hb

theorem IsSelectTopK.sel_le_all {k : ℕ} {l r : List DonorInfo}
    (h : IsSelectTopK k l r) (hk1 : 1 ≤ k) (hk : k ≤ l.length)
    {b : DonorInfo} (hb : b ∈ l) : selDist r 0 ≤ b.dist := by
  have hbr : b ∈ r := h.1.mem_iff.mp hb
  rw [← List.take_append_drop k r] at hbr
  rcases List.mem_append.mp hbr with hbt | hbd
  · rcases List.mem_iff_getElem.mp hbt with ⟨m, hm, rfl⟩
    have hmk : m < k := by rw [List.length_take, h.length_eq] at hm; omega
    rw [← List.getD_eq_getElem _ default hm, getD_take_eq hmk]
    exact h.selDist_mono (Nat.zero_le m) hmk hk
  · exact h.sel_le_drop (by omega) hk hbd

theorem computeDenom_eq_sum (k : ℕ) (r : List DonorInfo) :
    computeDenom k r = ∑ i ∈ Finset.range k, invWeight (selDist r i) := by
  rw [computeDenom, sum_map_range]

/-- C1: for every processed target vertex (owned, with at least `nDonor`
    gathered donor candidates), the `nDonor` normalized weights written by
    `Set_TransferCoeff` sum to 1: each raw weight `1/(dist+eps)` is divided by
    the sum of the `nDonor` raw weights before being stored
    (CNearestNeighbor.cpp lines 129-143). -/
theorem Set_TransferCoeff_weights_sum_one
    (g : GatheredDonors) (nDim nDonor : ℕ) (ci : ℕ → ℚ) (r : List DonorInfo)
    (hk1 : 1 ≤ nDonor)
    (hsel : IsSelectTopK nDonor (fillDonorInfo g nDim ci) r)
    (hlen : nDonor ≤ (fillDonorInfo g nDim ci).length) :
    (processTarget nDonor r).coeff.sum = 1 := by
  have hD := hsel.computeDenom_pos hk1 hlen
  show ((List.range nDonor).map
    (fun i => invWeight (selDist r i) / computeDenom nDonor r)).sum = 1
  rw [sum_map_range, ← Finset.sum_div, ← computeDenom_eq_sum,
    div_self (ne_of_gt hD)]

theorem gW1_fill : fillDonorInfo gW1 1 (fun _ => 1) = [⟨4, 7, 0⟩] := by
  simp [fillDonorInfo, gW1, List.range_succ, donorCandidate, PointsSquareDistance]
  norm_num

theorem gW1_sel : IsSelectTopK 1 (fillDonorInfo gW1 1 (fun _ => 1)) [⟨4, 7, 0⟩] := by
  rw [IsSelectTopK, gW1_fill]
  refine ⟨List.Perm.refl _, ?_, ?_⟩ <;> simp

theorem Set_TransferCoeff_weights_sum_one_witness :
    (1 ≤ 1 ∧ IsSelectTopK 1 (fillDonorInfo gW1 1 (fun _ => 1)) [⟨4, 7, 0⟩] ∧
      1 ≤ (fillDonorInfo gW1 1 (fun _ => 1)).length) ∧
    (processTarget 1 [⟨4, 7, 0⟩]).coeff.sum = 1 :=
  ⟨⟨le_refl 1, gW1_sel, by rw [gW1_fill]; simp⟩,
    Set_TransferCoeff_weights_sum_one gW1 1 1 (fun _ => 1) [⟨4, 7, 0⟩]
      (le_refl 1) gW1_sel (by rw [gW1_fill]; simp)⟩

/-- C5: every stored weight is strictly positive (and, the distances being
    sums of squares, the regularized denominators `d + eps` are strictly
    positive, so no division by zero occurs): each selected distance `d ≥ 0`
    becomes `1/(d+eps)` with `eps = 2⁻⁵²` (CNearestNeighbor.cpp lines 53 and
    130-134).  Finiteness is inherent to the exact rational model. -/
theorem Set_TransferCoeff_weights_positive
    (g : GatheredDonors) (nDim nDonor : ℕ) (ci : ℕ → ℚ) (r : List DonorInfo)
    (hk1 : 1 ≤ nDonor)
    (hsel : IsSelectTopK nDonor (fillDonorInfo g nDim ci) r)
    (hlen : nDonor ≤ (fillDonorInfo g nDim ci).length) :
    (∀ c ∈ (processTarget nDonor r).coeff, 0 < c) ∧
    (∀ i < nDonor, 0 < selDist r i + epsM) := by
  have hD := hsel.computeDenom_pos hk1 hlen
  constructor
  · intro c hc
    rcases List.mem_map.mp hc with ⟨i, hi, rfl⟩
    have hi' := List.mem_range.mp hi
    exact div_pos (invWeight_pos (hsel.selDist_nonneg hi' hlen)) hD
  · intro i hi
    have := hsel.selDist_nonneg hi hlen
    have := epsM_pos
    linarith

theorem Set_TransferCoeff_weights_positive_witness :
    (1 ≤ 1 ∧ IsSelectTopK 1 (fillDonorInfo gW1 1 (fun _ => 1)) [⟨4, 7, 0⟩] ∧
      1 ≤ (fillDonorInfo gW1 1 (fun _ => 1)).length) ∧
    ((∀ c ∈ (processTarget 1 [(⟨4, 7, 0⟩ : DonorInfo)]).coeff, 0 < c) ∧
      (∀ i < 1, 0 < selDist [(⟨4, 7, 0⟩ : DonorInfo)] i + epsM)) :=
  ⟨⟨le_refl 1, gW1_sel, by rw [gW1_fill]; simp⟩,
    Set_TransferCoeff_weights_positive gW1 1 1 (fun _ => 1) [⟨4, 7, 0⟩]
      (le_refl 1) gW1_sel (by rw [gW1_fill]; simp)⟩

/-- C7: the donor count actually used is `max(configured, 1)`: it is at least 1
    for every configuration (an unset count is read as 0 and becomes 1), equals
    the configured count whenever that is positive, and every record produced by
    the run is allocated with exactly that many slots. -/
theorem effectiveNDonor_spec (n : ℕ) (r : List DonorInfo) :
    1 ≤ effectiveNDonor n ∧ effectiveNDonor 0 = 1 ∧
    effectiveNDonor (n + 1) = n + 1 ∧
    (processTarget (effectiveNDonor n) r).donorPoint.length = effectiveNDonor n ∧
    (processTarget (effectiveNDonor n) r).donorProc.length = effectiveNDonor n ∧
    (processTarget (effectiveNDonor n) r).coeff.length = effectiveNDonor n := by
  refine ⟨?_, rfl, ?_, ?_, ?_, ?_⟩ <;> simp [effectiveNDonor, processTarget]

/-- C3: every access to the working array stays below its size `nPossibleDonor`
    iff `nPossibleDonor ≥ nDonor`; when fewer donors than `nDonor` exist
    globally an out-of-bounds slot is touched; the candidate fill itself always
    stays in bounds (the list has exactly `nPossibleDonor` entries); and the
    record is always allocated with exactly `nDonor` slots, all written. -/
theorem donorInfo_access_bounds (g : GatheredDonors) (nDim nDonor : ℕ)
    (ci : ℕ → ℚ) (r : List DonorInfo) (hk1 : 1 ≤ nDonor) :
    ((∀ i ∈ donorInfoAccesses nDonor (nPossibleDonorOf g), i < nPossibleDonorOf g) ↔
      nDonor ≤ nPossibleDonorOf g) ∧
    (nPossibleDonorOf g < nDonor →
      ∃ i ∈ donorInfoAccesses nDonor (nPossibleDonorOf g), nPossibleDonorOf g ≤ i) ∧
    (fillDonorInfo g nDim ci).length = nPossibleDonorOf g ∧
    (processTarget nDonor r).donorPoint.length = nDonor ∧
    (processTarget nDonor r).donorProc.length = nDonor ∧
    (processTarget nDonor r).coeff.length = nDonor := by
  refine ⟨?_, ?_, length_fillDonorInfo g nDim ci, ?_, ?_, ?_⟩
  · simp only [donorInfoAccesses, List.mem_append, List.mem_range]
    constructor
    · intro h
      have := h (nDonor - 1) (Or.inr (by omega))
      omega
    · intro h i hi
      rcases hi with h1 | h2 <;> omega
  · intro h
    refine ⟨nDonor - 1, ?_, by omega⟩
    simp only [donorInfoAccesses, List.mem_append, List.mem_range]
    exact Or.inr (by omega)
  all_goals simp [processTarget]

theorem donorInfo_access_bounds_witness :
    1 ≤ 2 ∧
    (((∀ i ∈ donorInfoAccesses 2 (nPossibleDonorOf gW1), i < nPossibleDonorOf gW1) ↔
        2 ≤ nPossibleDonorOf gW1) ∧
      (nPossibleDonorOf gW1 < 2 →
        ∃ i ∈ donorInfoAccesses 2 (nPossibleDonorOf gW1), nPossibleDonorOf gW1 ≤ i) ∧
      (fillDonorInfo gW1 1 (fun _ => 1)).length = nPossibleDonorOf gW1 ∧
      (processTarget 2 ([] : List DonorInfo)).donorPoint.length = 2 ∧
      (processTarget 2 ([] : List DonorInfo)).donorProc.length = 2 ∧
      (processTarget 2 ([] : List DonorInfo)).coeff.length = 2) :=
  ⟨by norm_num, donorInfo_access_bounds gW1 1 2 (fun _ => 1) [] (by norm_num)⟩

/-- C2: (a) the candidate scan reads only real gathered slots — any two buffer
    states that agree on every real slot (process `p < nProcessor`, slot
    `j < nVertexPerProc p`, coordinates `d < nDim`) produce the same candidate
    list, so padded slots past a process's count are never read; (b) there is
    exactly one candidate per real donor, each built from its `(process, slot)`
    pair; (c) the `nDonor` entries written to the record are candidates, stored
    in ascending squared-distance order; (d) they are the `nDonor` smallest:
    no unselected candidate is closer than a selected one; (e) for `nDonor = 1`
    the single selected donor attains the global minimum squared distance
    (CNearestNeighbor.cpp lines 112-127 and 136-143). -/
theorem candidate_scan_and_selection
    (g g' : GatheredDonors) (nDim nDonor : ℕ) (ci : ℕ → ℚ) (r : List DonorInfo)
    (hproc : g'.nProcessor = g.nProcessor)
    (hcnt : ∀ p, g'.nVertexPerProc p = g.nVertexPerProc p)
    (hmax : g'.maxLocalVertex = g.maxLocalVertex)
    (hgp : ∀ p j, p < g.nProcessor → j < g.nVertexPerProc p →
      g'.globalPoint (p * g.maxLocalVertex + j) = g.globalPoint (p * g.maxLocalVertex + j))
    (hco : ∀ p j d, p < g.nProcessor → j < g.nVertexPerProc p → d < nDim →
      g'.coord ((p * g.maxLocalVertex + j) * nDim + d) =
        g.coord ((p * g.maxLocalVertex + j) * nDim + d))
    (hk1 : 1 ≤ nDonor)
    (hsel : IsSelectTopK nDonor (fillDonorInfo g nDim ci) r)
    (hlen : nDonor ≤ (fillDonorInfo g nDim ci).length) :
    fillDonorInfo g' nDim ci = fillDonorInfo g nDim ci ∧
    (fillDonorInfo g nDim ci).length =
      ∑ p ∈ Finset.range g.nProcessor, g.nVertexPerProc p ∧
    (∀ c ∈ fillDonorInfo g nDim ci,
      ∃ p < g.nProcessor, ∃ j < g.nVertexPerProc p, c = donorCandidate g nDim ci p j) ∧
    (∀ i < nDonor, ∃ c ∈ fillDonorInfo g nDim ci,
      (processTarget nDonor r).donorPoint.getD i 0 = c.pidx ∧
      (processTarget nDonor r).donorProc.getD i 0 = c.proc ∧
      selDist r i = c.dist) ∧
    (∀ i j, i ≤ j → j < nDonor → selDist r i ≤ selDist r j) ∧
    (∀ i < nDonor, ∀ b ∈ r.drop nDonor, selDist r i ≤ b.dist) ∧
    (r.take nDonor ++ r.drop nDonor).Perm (fillDonorInfo g nDim ci) ∧
    (nDonor = 1 → ∀ b ∈ fillDonorInfo g nDim ci, selDist r 0 ≤ b.dist) := by
  refine ⟨?_, length_fillDonorInfo g nDim ci, fun c hc => mem_fillDonorInfo.mp hc,
    ?_, fun i j hij hj => hsel.selDist_mono hij hj hlen,
    fun i hi b hb => hsel.sel_le_drop hi hlen hb,
    by rw [List.take_append_drop]; exact hsel.1.symm,
    ?_⟩
  · unfold fillDonorInfo
    rw [hproc]
    apply congrArg
    apply List.map_congr_left
    intro p hp
    have hp' := List.mem_range.mp hp
    rw [hcnt p]
    apply List.map_congr_left
    intro j hj
    have hj' := List.mem_range.mp hj
    unfold donorCandidate
    rw [hmax]
    have hdist : PointsSquareDistance nDim ci
        (fun d => g'.coord ((p * g.maxLocalVertex + j) * nDim + d)) =
        PointsSquareDistance nDim ci
          (fun d => g.coord ((p * g.maxLocalVertex + j) * nDim + d)) := by
      unfold PointsSquareDistance
      exact Finset.sum_congr rfl fun d hd =>
        by simp only [hco p j d hp' hj' (Finset.mem_range.mp hd)]
    rw [hdist, hgp p j hp' hj']
  · intro i hi
    refine ⟨r.getD i default, hsel.sel_mem hi hlen, ?_, ?_, rfl⟩
    · show ((List.range nDonor).map (fun i => (r.getD i default).pidx)).getD i 0 =
        (r.getD i default).pidx
      rw [List.getD_eq_getElem _ _ (by simpa using hi)]
      simp
    · show ((List.range nDonor).map (fun i => (r.getD i default).proc)).getD i 0 =
        (r.getD i default).proc
      rw [List.getD_eq_getElem _ _ (by simpa using hi)]
      simp
  · rintro rfl b hb
    exact hsel.sel_le_all (le_refl 1) hlen hb

theorem candidate_scan_and_selection_witness :
    (1 ≤ 1 ∧ IsSelectTopK 1 (fillDonorInfo gW1 1 (fun _ => 1)) [⟨4, 7, 0⟩] ∧
      1 ≤ (fillDonorInfo gW1 1 (fun _ => 1)).length) ∧
    (fillDonorInfo gW1 1 (fun _ => 1) = fillDonorInfo gW1 1 (fun _ => 1) ∧
    (fillDonorInfo gW1 1 (fun _ => 1)).length =
      ∑ p ∈ Finset.range gW1.nProcessor, gW1.nVertexPerProc p ∧
    (∀ c ∈ fillDonorInfo gW1 1 (fun _ => 1),
      ∃ p < gW1.nProcessor, ∃ j < gW1.nVertexPerProc p,
        c = donorCandidate gW1 1 (fun _ => 1) p j) ∧
    (∀ i < 1, ∃ c ∈ fillDonorInfo gW1 1 (fun _ => 1),
      (processTarget 1 [(⟨4, 7, 0⟩ : DonorInfo)]).donorPoint.getD i 0 = c.pidx ∧
      (processTarget 1 [(⟨4, 7, 0⟩ : DonorInfo)]).donorProc.getD i 0 = c.proc ∧
      selDist [(⟨4, 7, 0⟩ : DonorInfo)] i = c.dist) ∧
    (∀ i j, i ≤ j → j < 1 →
      selDist [(⟨4, 7, 0⟩ : DonorInfo)] i ≤ selDist [(⟨4, 7, 0⟩ : DonorInfo)] j) ∧
    (∀ i < 1, ∀ b ∈ ([(⟨4, 7, 0⟩ : DonorInfo)] : List DonorInfo).drop 1,
      selDist [(⟨4, 7, 0⟩ : DonorInfo)] i ≤ b.dist) ∧
    (([(⟨4, 7, 0⟩ : DonorInfo)] : List DonorInfo).take 1 ++
        ([(⟨4, 7, 0⟩ : DonorInfo)] : List DonorInfo).drop 1).Perm
      (fillDonorInfo gW1 1 (fun _ => 1)) ∧
    ((1 : ℕ) = 1 → ∀ b ∈ fillDonorInfo gW1 1 (fun _ => 1),
      selDist [(⟨4, 7, 0⟩ : DonorInfo)] 0 ≤ b.dist)) :=
  ⟨⟨le_refl 1, gW1_sel, by rw [gW1_fill]; simp⟩,
    candidate_scan_and_selection gW1 gW1 1 1 (fun _ => 1) [⟨4, 7, 0⟩]
      rfl (fun _ => rfl) rfl (fun _ _ _ _ => rfl) (fun _ _ _ _ _ _ => rfl)
      (le_refl 1) gW1_sel (by rw [gW1_fill]; simp)⟩

theorem vertexPass_skip_aux (nDonor : ℕ) (tg : TargetGeom)
    (choice : ℕ → List DonorInfo) (init : ℕ → Option TransferRecord) (v : ℕ)
    (hdom : tg.domain (tg.nodeOf v) = false) (l : List ℕ)
    (st : (ℕ → Option TransferRecord) × List ℕ)
    (h1 : st.1 v = init v) (h2 : v ∉ st.2) :
    (l.foldl
      (fun (st : (ℕ → Option TransferRecord) × List ℕ) i =>
        if tg.domain (tg.nodeOf i) then
          (fun j => if j = i then some (processTarget nDonor (choice i)) else st.1 j,
            st.2 ++ [i])
        else st)
      st).1 v = init v ∧
    v ∉ (l.foldl
      (fun (st : (ℕ → Option TransferRecord) × List ℕ) i =>
        if tg.domain (tg.nodeOf i) then
          (fun j => if j = i then some (processTarget nDonor (choice i)) else st.1 j,
            st.2 ++ [i])
        else st)
      st).2 := by
  induction l generalizing st with
  | nil => exact ⟨h1, h2⟩
  | cons i l ih =>
    simp only [List.foldl_cons]
    by_cases hdi : tg.domain (tg.nodeOf i)
    · rw [if_pos hdi]
      have hvi : v ≠ i := fun h => by rw [h, hdi] at hdom; cases hdom
      refine ih _ ?_ ?_
      · simp only [if_neg hvi]; exact h1
      · simp only [List.mem_append, List.mem_singleton]
        rintro (h | h)
        · exact h2 h
        · exact hvi h
    · rw [if_neg hdi]; exact ih st h1 h2

/-- C9: a target vertex whose node's domain-ownership flag is false is skipped
    entirely by the vertex loop: its record slot is exactly what it was before
    the pass (nothing allocated, nothing written), and the
    scan-select-write body never runs for it. -/
theorem halo_vertex_untouched (nDonor : ℕ) (tg : TargetGeom)
    (choice : ℕ → List DonorInfo) (init : ℕ → Option TransferRecord) (v : ℕ)
    (hdom : tg.domain (tg.nodeOf v) = false) :
    (vertexPass nDonor tg choice init).1 v = init v ∧
    v ∉ (vertexPass nDonor tg choice init).2 :=
  vertexPass_skip_aux nDonor tg choice init v hdom (List.range tg.nVertexTarget)
    (init, []) rfl (List.not_mem_nil v)

theorem halo_vertex_untouched_witness :
    tgW.domain (tgW.nodeOf 0) = false ∧
    ((vertexPass 1 tgW (fun _ => [⟨4, 7, 0⟩]) (fun _ => none)).1 0 = none ∧
      0 ∉ (vertexPass 1 tgW (fun _ => [⟨4, 7, 0⟩]) (fun _ => none)).2) :=
  ⟨rfl, halo_vertex_untouched 1 tgW (fun _ => [⟨4, 7, 0⟩]) (fun _ => none) 0 rfl⟩

/-- C10: for a marker index on which both sides resolve to the sentinel `-1`,
    no event is issued: no buffer allocation, no size-negotiation and no
    vertex-collection collective carries that marker; the loop's event list is
    exactly that of the remaining markers. -/
theorem absent_marker_fully_skipped (nMarkerInt : ℕ) (findDonor findTarget : ℕ → ℤ)
    (m : ℕ) (hd : findDonor m = -1) (ht : findTarget m = -1) :
    ∀ e ∈ markerLoop nMarkerInt findDonor findTarget, e.marker ≠ m := by
  intro e he
  simp only [markerLoop, List.mem_flatten, List.mem_map] at he
  rcases he with ⟨_, ⟨i, hi, rfl⟩, hei⟩
  by_cases him : i = m
  · subst him
    rw [if_neg (by simp [CheckInterfaceBoundary, hd, ht])] at hei
    cases hei
  · rcases Bool.eq_false_or_eq_true
        (CheckInterfaceBoundary (findDonor i) (findTarget i)) with hb | hb
    · rw [if_pos hb] at hei
      intro hem
      have hmi : e.marker = i := by
        simp only [List.mem_cons, List.not_mem_nil, or_false] at hei
        rcases hei with h | h | h | h | h | h <;> subst h <;> rfl
      rw [hmi] at hem
      exact him hem
    · rw [if_neg (by simp [hb])] at hei
      cases hei

theorem absent_marker_fully_skipped_witness :
    ((fun _ : ℕ => (-1 : ℤ)) 1 = -1 ∧ (fun _ : ℕ => (-1 : ℤ)) 1 = -1) ∧
    (∀ e ∈ markerLoop 1 (fun _ => (-1 : ℤ)) (fun _ => (-1 : ℤ)), e.marker ≠ 1) :=
  ⟨⟨rfl, rfl⟩,
    absent_marker_fully_skipped 1 (fun _ => (-1 : ℤ)) (fun _ => (-1 : ℤ)) 1 rfl rfl⟩

theorem perm_pair_cases {r : List DonorInfo} {a b : DonorInfo}
    (h : r.Perm [a, b]) : r = [a, b] ∨ r = [b, a] := by
  have hl : r.length = 2 := by simpa using h.length_eq
  rcases List.length_eq_two.mp hl with ⟨x, y, rfl⟩
  have hx : x = a ∨ x = b := by
    have := h.subset (List.mem_cons_self x [y])
    simpa using this
  rcases hx with rfl | rfl
  · left
    have hy := List.perm_singleton.mp h.cons_inv
    rw [hy]
  · right
    have h' : ([x, y] : List DonorInfo).Perm [x, a] :=
      h.trans (List.Perm.swap a x []).symm
    have hy := List.perm_singleton.mp h'.cons_inv
    rw [hy]

theorem candC4_eq : fillDonorInfo gC4 1 (fun _ => 0) =
    [⟨1, 0, 0⟩, ⟨4, 1, 0⟩, ⟨9, 2, 0⟩] := by
  simp [fillDonorInfo, gC4, donorCandidate, PointsSquareDistance, List.range_succ]
  norm_num

/-- C4: for the 1-D target at coordinate 0 with donors at 1, 2, 3 and
    `nDonor = 2`, every admissible selection stores the donors at squared
    distances 1 and 4 (global points 0 and 1, in that order) with normalized
    weights exactly `(1/(1+eps))/((1/(1+eps))+(1/(4+eps)))` and its complement,
    numerically within 10⁻⁶ of 0.8 and 0.2. -/
theorem worked_example_1d (r : List DonorInfo)
    (hsel : IsSelectTopK 2 (fillDonorInfo gC4 1 (fun _ => 0)) r) :
    (processTarget 2 r).donorPoint = [0, 1] ∧
    (processTarget 2 r).coeff =
      [invWeight 1 / (invWeight 1 + invWeight 4),
        invWeight 4 / (invWeight 1 + invWeight 4)] ∧
    4/5 - 1/10^6 < (processTarget 2 r).coeff.getD 0 0 ∧
    (processTarget 2 r).coeff.getD 0 0 ≤ 4/5 ∧
    1/5 ≤ (processTarget 2 r).coeff.getD 1 0 ∧
    (processTarget 2 r).coeff.getD 1 0 < 1/5 + 1/10^6 := by
  rw [candC4_eq] at hsel
  have hl : r.length = 3 := by simpa using hsel.length_eq
  rcases List.length_eq_three.mp hl with ⟨x, y, z, rfl⟩
  have hxd : x.dist ≤ 1 := by
    have := hsel.sel_le_all (by norm_num) (by norm_num)
      (b := ⟨1, 0, 0⟩) (by simp)
    simpa [selDist] using this
  have hxmem : x ∈ ([⟨1, 0, 0⟩, ⟨4, 1, 0⟩, ⟨9, 2, 0⟩] : List DonorInfo) :=
    hsel.1.mem_iff.mpr (by simp)
  simp only [List.mem_cons, List.not_mem_nil, or_false] at hxmem
  have hx : x = ⟨1, 0, 0⟩ := by
    rcases hxmem with rfl | rfl | rfl
    · rfl
    · exfalso; norm_num at hxd
    · exfalso; norm_num at hxd
  subst hx
  have hyz : ([y, z] : List DonorInfo).Perm [⟨4, 1, 0⟩, ⟨9, 2, 0⟩] :=
    hsel.1.cons_inv.symm
  rcases perm_pair_cases hyz with h | h
  · have hy : y = ⟨4, 1, 0⟩ := by injection h
    have hz : z = ⟨9, 2, 0⟩ := by
      injection h with h1 h2
      injection h2
    subst hy; subst hz
    refine ⟨?_, ?_, ?_, ?_, ?_, ?_⟩ <;>
      simp [processTarget, selDist, computeDenom, invWeight, epsM,
        List.range_succ] <;>
      norm_num
  · exfalso
    have hy : y = ⟨9, 2, 0⟩ := by injection h
    have hz : z = ⟨4, 1, 0⟩ := by
      injection h with h1 h2
      injection h2
    subst hy; subst hz
    have := hsel.sel_le_drop (i := 1) (by norm_num) (by norm_num)
      (b := ⟨4, 1, 0⟩) (by simp)
    simp [selDist] at this
    norm_num at this

theorem candC4_sel : IsSelectTopK 2 (fillDonorInfo gC4 1 (fun _ => 0))
    [⟨1, 0, 0⟩, ⟨4, 1, 0⟩, ⟨9, 2, 0⟩] := by
  rw [IsSelectTopK, candC4_eq]
  refine ⟨List.Perm.refl _, ?_, ?_⟩
  · simp
  · intro a ha b hb
    simp at ha hb
    rcases ha with rfl | rfl <;> rw [hb] <;> norm_num

theorem worked_example_1d_witness :
    IsSelectTopK 2 (fillDonorInfo gC4 1 (fun _ => 0))
      [⟨1, 0, 0⟩, ⟨4, 1, 0⟩, ⟨9, 2, 0⟩] ∧
    ((processTarget 2 [(⟨1, 0, 0⟩ : DonorInfo), ⟨4, 1, 0⟩, ⟨9, 2, 0⟩]).donorPoint = [0, 1] ∧
      (processTarget 2 [(⟨1, 0, 0⟩ : DonorInfo), ⟨4, 1, 0⟩, ⟨9, 2, 0⟩]).coeff =
        [invWeight 1 / (invWeight 1 + invWeight 4),
          invWeight 4 / (invWeight 1 + invWeight 4)] ∧
      4/5 - 1/10^6 <
        (processTarget 2 [(⟨1, 0, 0⟩ : DonorInfo), ⟨4, 1, 0⟩, ⟨9, 2, 0⟩]).coeff.getD 0 0 ∧
      (processTarget 2 [(⟨1, 0, 0⟩ : DonorInfo), ⟨4, 1, 0⟩, ⟨9, 2, 0⟩]).coeff.getD 0 0 ≤ 4/5 ∧
      1/5 ≤ (processTarget 2 [(⟨1, 0, 0⟩ : DonorInfo), ⟨4, 1, 0⟩, ⟨9, 2, 0⟩]).coeff.getD 1 0 ∧
      (processTarget 2 [(⟨1, 0, 0⟩ : DonorInfo), ⟨4, 1, 0⟩, ⟨9, 2, 0⟩]).coeff.getD 1 0 <
        1/5 + 1/10^6) :=
  ⟨candC4_sel, worked_example_1d _ candC4_sel⟩

theorem candC6_eq : fillDonorInfo gC6 1 (fun _ => 0) =
    [⟨0, 0, 0⟩, ⟨1, 1, 0⟩] := by
  simp [fillDonorInfo, gC6, donorCandidate, PointsSquareDistance, List.range_succ]

/-- C6: with `nDonor = 2` and selected squared distances 0 and 1, the
    coincident donor is stored first with normalized weight exactly
    `(1/eps)/((1/eps) + 1/(1+eps))`, which exceeds 0.999999. -/
theorem coincident_donor_dominates (r : List DonorInfo)
    (hsel : IsSelectTopK 2 (fillDonorInfo gC6 1 (fun _ => 0)) r) :
    (processTarget 2 r).donorPoint = [0, 1] ∧
    (processTarget 2 r).coeff.getD 0 0 =
      invWeight 0 / (invWeight 0 + invWeight 1) ∧
    999999/1000000 < (processTarget 2 r).coeff.getD 0 0 := by
  rw [candC6_eq] at hsel
  have hl : r.length = 2 := by simpa using hsel.length_eq
  rcases List.length_eq_two.mp hl with ⟨x, y, rfl⟩
  have hxd : x.dist ≤ 0 := by
    have := hsel.sel_le_all (by norm_num) (by norm_num)
      (b := ⟨0, 0, 0⟩) (by simp)
    simpa [selDist] using this
  have hxmem : x ∈ ([⟨0, 0, 0⟩, ⟨1, 1, 0⟩] : List DonorInfo) :=
    hsel.1.mem_iff.mpr (by simp)
  simp only [List.mem_cons, List.not_mem_nil, or_false] at hxmem
  have hx : x = ⟨0, 0, 0⟩ := by
    rcases hxmem with rfl | rfl
    · rfl
    · exfalso; norm_num at hxd
  subst hx
  have hy : ([y] : List DonorInfo) = [⟨1, 1, 0⟩] :=
    List.perm_singleton.mp hsel.1.cons_inv.symm
  have hy' : y = ⟨1, 1, 0⟩ := by injection hy
  subst hy'
  refine ⟨?_, ?_, ?_⟩ <;>
    first
      | (simp [processTarget, selDist, computeDenom, invWeight, epsM,
           List.range_succ]
         norm_num)
      | simp [processTarget, selDist, computeDenom, invWeight, epsM,
          List.range_succ]

theorem candC6_sel : IsSelectTopK 2 (fillDonorInfo gC6 1 (fun _ => 0))
    [⟨0, 0, 0⟩, ⟨1, 1, 0⟩] := by
  rw [IsSelectTopK, candC6_eq]
  refine ⟨List.Perm.refl _, ?_, ?_⟩
  · simp
  · intro a ha b hb
    simp at hb

theorem coincident_donor_dominates_witness :
    IsSelectTopK 2 (fillDonorInfo gC6 1 (fun _ => 0))
      [⟨0, 0, 0⟩, ⟨1, 1, 0⟩] ∧
    ((processTarget 2 [(⟨0, 0, 0⟩ : DonorInfo), ⟨1, 1, 0⟩]).donorPoint = [0, 1] ∧
      (processTarget 2 [(⟨0, 0, 0⟩ : DonorInfo), ⟨1, 1, 0⟩]).coeff.getD 0 0 =
        invWeight 0 / (invWeight 0 + invWeight 1) ∧
      999999/1000000 <
        (processTarget 2 [(⟨0, 0, 0⟩ : DonorInfo), ⟨1, 1, 0⟩]).coeff.getD 0 0) :=
  ⟨candC6_sel, coincident_donor_dominates _ candC6_sel⟩

theorem candC8_eq : fillDonorInfo gC8 1 (fun _ => 0) =
    [⟨1, 10, 0⟩, ⟨1, 11, 1⟩] := by
  simp [fillDonorInfo, gC8, donorCandidate, PointsSquareDistance, List.range_succ]

theorem candC8_sel_swapped : IsSelectTopK 1 (fillDonorInfo gC8 1 (fun _ => 0))
    [⟨1, 11, 1⟩, ⟨1, 10, 0⟩] := by
  rw [IsSelectTopK, candC8_eq]
  refine ⟨List.Perm.swap (⟨1, 11, 1⟩ : DonorInfo) ⟨1, 10, 0⟩ ([] : List DonorInfo), ?_, ?_⟩
  · simp
  · intro a ha b hb
    simp at ha hb
    rw [ha, hb]

/-- C8 refuted as stated: the `partial_sort` contract does not force the
    first-in-scan-order candidate to win a tie.  With two candidates both at
    squared distance 1 (process 0 first in scan order), the outcome that keeps
    the process-1 candidate in front is admissible, and it stores global point
    11, not the first-scanned 10. -/
theorem scan_order_tiebreak_refuted :
    ¬ ∀ r : List DonorInfo, IsSelectTopK 1 (fillDonorInfo gC8 1 (fun _ => 0)) r →
      (processTarget 1 r).donorPoint = [10] := by
  intro h
  have := h [⟨1, 11, 1⟩, ⟨1, 10, 0⟩] candC8_sel_swapped
  simp [processTarget, List.range_succ] at this

/-- C8 (amended): with `nDonor = 1` the selected donor always attains the
    global minimum squared distance over all candidates, but among
    equal-distance candidates the `partial_sort` contract leaves the choice
    unspecified, so no scan-order tie-break is guaranteed. -/
theorem nearest_donor_attains_min
    (g : GatheredDonors) (nDim : ℕ) (ci : ℕ → ℚ) (r : List DonorInfo)
    (hsel : IsSelectTopK 1 (fillDonorInfo g nDim ci) r)
    (hne : 1 ≤ (fillDonorInfo g nDim ci).length) :
    ∃ c ∈ fillDonorInfo g nDim ci,
      (processTarget 1 r).donorPoint = [c.pidx] ∧
      (processTarget 1 r).donorProc = [c.proc] ∧
      ∀ b ∈ fillDonorInfo g nDim ci, c.dist ≤ b.dist := by
  refine ⟨r.getD 0 default, hsel.sel_mem (by norm_num) hne, ?_, ?_, ?_⟩
  · simp [processTarget, List.range_succ]
  · simp [processTarget, List.range_succ]
  · intro b hb
    have := hsel.sel_le_all (le_refl 1) hne hb
    simpa [selDist] using this

theorem nearest_donor_attains_min_witness :
    (IsSelectTopK 1 (fillDonorInfo gC8 1 (fun _ => 0))
        [⟨1, 11, 1⟩, ⟨1, 10, 0⟩] ∧
      1 ≤ (fillDonorInfo gC8 1 (fun _ => 0)).length) ∧
    (∃ c ∈ fillDonorInfo gC8 1 (fun _ => 0),
      (processTarget 1 [(⟨1, 11, 1⟩ : DonorInfo), ⟨1, 10, 0⟩]).donorPoint = [c.pidx] ∧
      (processTarget 1 [(⟨1, 11, 1⟩ : DonorInfo), ⟨1, 10, 0⟩]).donorProc = [c.proc] ∧
      ∀ b ∈ fillDonorInfo gC8 1 (fun _ => 0), c.dist ≤ b.dist) :=
  ⟨⟨candC8_sel_swapped, by rw [candC8_eq]; simp⟩,
    nearest_donor_attains_min gC8 1 (fun _ => 0) [⟨1, 11, 1⟩, ⟨1, 10, 0⟩]
      candC8_sel_swapped (by rw [candC8_eq]; simp)⟩

end SU2NN
